import Mathlib

/-!
Verification of the rollout status checker (skaffold deploy status check).

The repository ships the test file pkg/skaffold/deploy/status_check_test.go;
the implementation file status_check.go is not part of the source tree, so the
checker itself (pollDeploymentsStatus, getDeployStatus, getDeadlineForDeployments,
the orchestrating StatusCheck) is modelled from the specification, while the
mock rollout-status query (MockRolloutStatus) is translated from the test file.

Time is modelled in abstract units (milliseconds in the tests): the poller
issues its queries at instants 0, p, 2p, ... where p is the poll interval, and
the elapsed-time test of the specification compares the instant of the current
query against the time budget.
-/

deriving instance DecidableEq for Except

/-- Case-sensitive substring scan helper: does the second list start with the first. -/
def startsWith : List Char → List Char → Bool
  | [], _ => true
  | _ :: _, [] => false
  | a :: as, b :: bs => a == b && startsWith as bs

/-- Case-sensitive substring scan: does the needle occur inside the haystack. -/
def containsSub : List Char → List Char → Bool
  | n, [] => n.isEmpty
  | n, b :: bs => startsWith n (b :: bs) || containsSub n bs

/-- Case-sensitive substring test on strings, the shape of strings.Contains in Go. -/
def strContains (hay needle : String) : Bool := containsSub needle.data hay.data

/-- The recognized completion marker of a rollout status text, from the spec:
a recognized "successfully rolled out" marker, substring match, case-sensitive. -/
def successMarker : String := "successfully rolled out"

/-- The fixed timeout message of the spec: a fixed "did not stabilize within the
given timeout" message for TimedOut entries. -/
def timedOutMessage : String := "did not stabilize within the given timeout"

/-- Terminal outcome of polling a single workload, from the spec data model.
Pending is not terminal and therefore not a constructor here. -/
inductive PollOutcome where
  | success (statusText : String)
  | invocationFailure (cause : String)
  | timedOut
deriving DecidableEq, Repr

/-- Trace of one poller run: the terminal outcome, the number of invocations of
the status query, and the number of poll-interval sleeps performed. -/
structure PollTrace where
  outcome : PollOutcome
  calls : Nat
  sleeps : Nat
deriving DecidableEq, Repr

/-- Modelled from the spec (pollDeploymentsStatus of the missing status_check.go),
loop body of section 4.2: iteration i issues query i; an invocation error is
terminal with no retry; a status text containing the completion marker is
terminal success; otherwise the status is pending and if the elapsed time
i * pollInterval has reached the time budget the poller times out, else it
sleeps one poll interval and repeats. The fuel argument bounds the recursion
and is chosen large enough below whenever the poll interval is positive. -/
def pollAux (q : Nat → Except String String) (timeBudget pollInterval : Nat) :
    Nat → Nat → Option PollTrace
  | 0, _ => none
  | fuel + 1, i =>
    match q i with
    | .error e => some ⟨.invocationFailure e, i + 1, i⟩
    | .ok s =>
      if strContains s successMarker then some ⟨.success s, i + 1, i⟩
      else if timeBudget ≤ i * pollInterval then some ⟨.timedOut, i + 1, i⟩
      else pollAux q timeBudget pollInterval fuel (i + 1)

/-- Modelled from the spec: the poller for one workload, section 4.2. The query
is abstract (invocation index to status text or invocation error), matching the
swappable status query mechanism of section 6. -/
def pollDeploymentsStatus (q : Nat → Except String String)
    (timeBudget pollInterval : Nat) : Option PollTrace :=
  pollAux q timeBudget pollInterval (timeBudget + 2) 0

/-- The default poll period used by the tests after overriding, in milliseconds. -/
def defaultPollPeriodInMilliseconds : Nat := 100

/-- Mock rollout status query, translated from MockRolloutStatus in
status_check_test.go: on an error it returns the error; otherwise call number
i (zero based) answers responses[i], padding with the last response once the
list is exhausted. -/
structure MockRolloutStatus where
  responses : List String
  err : Option String

/-- Translated from MockRolloutStatus.Executefunc in status_check_test.go;
the Go mock keeps a call counter which is the index argument here. -/
def MockRolloutStatus.Executefunc (m : MockRolloutStatus) (called : Nat) :
    Except String String :=
  match m.err with
  | some e => .error e
  | none =>
    if called < m.responses.length then .ok (m.responses.getD called "")
    else .ok (m.responses.getLastD "")

/-- Splits a list of characters at every occurrence of the separator, keeping
empty groups, the shape of strings.Split in Go. -/
def splitChar (c : Char) : List Char → List (List Char)
  | [] => [[]]
  | a :: as =>
    match splitChar c as with
    | [] => [[]]
    | g :: gs => if a == c then [] :: g :: gs else (a :: g) :: gs

/-- Reads a decimal digit. -/
def digitVal (c : Char) : Option Nat :=
  if c.isDigit then some (c.toNat - 48) else none

/-- Accumulates decimal digits into a number, failing on a non-digit. -/
def digitsAux : List Char → Nat → Option Nat
  | [], acc => some acc
  | c :: cs, acc =>
    match digitVal c with
    | some d => digitsAux cs (acc * 10 + d)
    | none => none

/-- Parses a nonempty all-digit character list as a natural number. -/
def digitsToNat : List Char → Option Nat
  | [] => none
  | c :: cs => digitsAux (c :: cs) 0

/-- Modelled from the spec (parsing step of getDeadlineForDeployments of the
missing status_check.go), section 4.1: one piece of the query output is a
name:deadlineSeconds pair; anything else, for example the quoted-empty output
or the empty group after a trailing comma, is discarded. Deadline seconds are
modelled as natural numbers, the form every concrete scenario of the spec uses. -/
def parsePair (piece : List Char) : Option (String × Nat) :=
  match splitChar ':' piece with
  | [nm, num] =>
    match digitsToNat num with
    | some n => some (String.mk nm, n)
    | none => none
  | _ => none

/-- Modelled from the spec, section 4.1: the inspection query returns a single
line of comma-separated name:deadlineSeconds pairs, trailing comma tolerated,
empty or quoted-empty output parsing to an empty mapping. -/
def parseDeadlines (out : String) : List (String × Nat) :=
  (splitChar ',' out.data).filterMap parsePair

/-- Modelled from the spec (getDeadlineForDeployments of the missing
status_check.go), section 4.1: the deadline resolver fails fast when the
inspection query invocation itself fails, and otherwise parses the query
output into the deadline mapping. The query result is abstract, matching the
inspection query mechanism of section 6. -/
def getDeadlineForDeployments (queryResult : Except String String) :
    Except String (List (String × Nat)) :=
  match queryResult with
  | .error e => .error e
  | .ok out => .ok (parseDeadlines out)

/-- Byte-wise lexicographic comparison of character lists, total order used to
sort store entries by workload name. -/
def charListLe : List Char → List Char → Bool
  | [], _ => true
  | _ :: _, [] => false
  | a :: as, b :: bs =>
    if a.toNat < b.toNat then true
    else if b.toNat < a.toNat then false
    else charListLe as bs

/-- Modelled from the spec, section 4.4: the failure line one failing store
entry contributes to the aggregate error. -/
def errLine (kv : String × Except String String) : Option String :=
  match kv.2 with
  | .error c => some ("deployment " ++ kv.1 ++ " failed due to " ++ c)
  | .ok _ => none

/-- Ordering of store entries by workload name, byte-wise lexicographic. -/
def entryLE (a b : String × Except String String) : Prop :=
  charListLe a.1.data b.1.data = true

instance : DecidableRel entryLE := fun a b =>
  inferInstanceAs (Decidable (charListLe a.1.data b.1.data = true))

/-- Modelled from the spec, section 4.4: entries are visited in a stable order,
sorted by workload name. -/
def sortStore (store : List (String × Except String String)) :
    List (String × Except String String) :=
  List.insertionSort entryLE store

/-- Modelled from the spec, section 4.4: the ordered failure lines of a store,
one per entry holding a failure cause. -/
def deployFailureLines (store : List (String × Except String String)) :
    List String :=
  (sortStore store).filterMap errLine

/-- Concatenation of the failure lines, one line per failed workload. -/
def joinLines : List String → String
  | [] => ""
  | [l] => l
  | l :: l' :: ls => l ++ "\n" ++ joinLines (l' :: ls)

/-- Modelled from the spec (getDeployStatus of the missing status_check.go),
section 4.4: none is overall success, produced exactly when no entry holds a
failure cause; otherwise the aggregate error carries the concatenation of all
failure lines. -/
def getDeployStatus (store : List (String × Except String String)) :
    Option String :=
  match deployFailureLines store with
  | [] => none
  | l :: ls => some (joinLines (l :: ls))

/-- Modelled from the spec, sections 3 and 4.4: the value a poller stores for
its workload, the status text on success, the invocation error cause on an
invocation failure, and the fixed timeout message on a timeout. -/
def PollOutcome.storedValue : PollOutcome → Except String String
  | .success s => .ok s
  | .invocationFailure c => .error c
  | .timedOut => .error timedOutMessage

/-- Modelled from the spec, section 4.2 side effect: one poller run appends its
single terminal entry, keyed by the workload name, to the result store. When
the poll interval is positive the poll always yields a terminal trace, so the
fallback branch that leaves the store unchanged is never taken. -/
def pollAndStore (q : Nat → Except String String) (timeBudget pollInterval : Nat)
    (workloadName : String) (store : List (String × Except String String)) :
    List (String × Except String String) :=
  match pollDeploymentsStatus q timeBudget pollInterval with
  | some t => store ++ [(workloadName, t.outcome.storedValue)]
  | none => store

/-- Modelled from the spec, section 4.3 steps 2 and 3: one poller is run for
every workload of the deadline mapping against that workload's budget, and the
orchestrator joins before the store is read, which the sequential fold models. -/
def runPollers (q : String → Nat → Except String String) (pollInterval : Nat) :
    List (String × Nat) → List (String × Except String String) →
    List (String × Except String String)
  | [], store => store
  | (workloadName, budget) :: rest, store =>
      runPollers q pollInterval rest
        (pollAndStore (q workloadName) budget pollInterval workloadName store)

/-- Modelled from the spec (StatusCheck of the missing status_check.go),
section 4.3: resolve the deadlines, abort on the resolver's error before any
poller runs, otherwise run one poller per workload and hand the populated
store over. -/
def statusCheck (deadlineQuery : Except String String)
    (q : String → Nat → Except String String) (pollInterval : Nat) :
    Except String (List (String × Except String String)) :=
  match getDeadlineForDeployments deadlineQuery with
  | .error e => .error e
  | .ok dm => .ok (runPollers q pollInterval dm [])

/-- Number of entries of the store held under a given workload name. -/
def countKey (n : String) (store : List (String × Except String String)) : Nat :=
  (store.filter fun kv => kv.1 == n).length

/-- Strict ordering of store entries: name-ordered and with distinct names,
used to show the sorted store is uniquely determined. -/
def entryLT (a b : String × Except String String) : Prop :=
  entryLE a b ∧ a.1 ≠ b.1

theorem charListLe_total : ∀ a b, charListLe a b = true ∨ charListLe b a = true
  | [], _ => Or.inl rfl
  | _ :: _, [] => Or.inr rfl
  | a :: as, b :: bs => by
    simp only [charListLe]
    rcases Nat.lt_trichotomy a.toNat b.toNat with h | h | h
    · left; simp [h]
    · have hne : ¬ a.toNat < b.toNat := by omega
      have hne' : ¬ b.toNat < a.toNat := by omega
      rcases charListLe_total as bs with ih | ih <;> simp [hne, hne', ih]
    · right; simp [h, Nat.lt_asymm h]

theorem charListLe_trans :
    ∀ a b c, charListLe a b = true → charListLe b c = true → charListLe a c = true
  | [], _, _ => fun _ _ => rfl
  | _ :: _, [], _ => by simp [charListLe]
  | _ :: _, _ :: _, [] => by simp [charListLe]
  | a :: as, b :: bs, c :: cs => by
    intro h1 h2
    simp only [charListLe] at h1 h2 ⊢
    rcases Nat.lt_trichotomy a.toNat b.toNat with hab | hab | hab <;>
      rcases Nat.lt_trichotomy b.toNat c.toNat with hbc | hbc | hbc
    · simp [show a.toNat < c.toNat by omega]
    · simp [show a.toNat < c.toNat by omega]
    · simp [show ¬ b.toNat < c.toNat by omega, show c.toNat < b.toNat by omega] at h2
    · simp [show a.toNat < c.toNat by omega]
    · have e1 : ¬ a.toNat < b.toNat := by omega
      have e2 : ¬ b.toNat < a.toNat := by omega
      have e3 : ¬ b.toNat < c.toNat := by omega
      have e4 : ¬ c.toNat < b.toNat := by omega
      simp only [e1, e2, if_false] at h1
      simp only [e3, e4, if_false] at h2
      simp [show ¬ a.toNat < c.toNat by omega, show ¬ c.toNat < a.toNat by omega,
        charListLe_trans as bs cs h1 h2]
    · simp [show ¬ b.toNat < c.toNat by omega, show c.toNat < b.toNat by omega] at h2
    · simp [show ¬ a.toNat < b.toNat by omega, show b.toNat < a.toNat by omega] at h1
    · simp [show ¬ a.toNat < b.toNat by omega, show b.toNat < a.toNat by omega] at h1
    · simp [show ¬ a.toNat < b.toNat by omega, show b.toNat < a.toNat by omega] at h1

theorem charListLe_antisymm :
    ∀ a b, charListLe a b = true → charListLe b a = true → a = b
  | [], [] => fun _ _ => rfl
  | [], _ :: _ => by simp [charListLe]
  | _ :: _, [] => by simp [charListLe]
  | a :: as, b :: bs => by
    intro h1 h2
    simp only [charListLe] at h1 h2
    rcases Nat.lt_trichotomy a.toNat b.toNat with h | h | h
    · simp [show ¬ b.toNat < a.toNat by omega, show a.toNat < b.toNat from h] at h2
    · have hc : a = b := Char.eq_of_val_eq (UInt32.toNat.inj h)
      subst hc
      simp only [Nat.lt_irrefl, if_false] at h1 h2
      rw [charListLe_antisymm as bs h1 h2]
    · simp [show ¬ a.toNat < b.toNat by omega, show b.toNat < a.toNat from h] at h1

theorem startsWith_append_self : ∀ (n t : List Char), startsWith n (n ++ t) = true
  | [], _ => rfl
  | a :: as, t => by simp [startsWith, startsWith_append_self as t]

theorem containsSub_nil_right : ∀ (t : List Char), containsSub [] t = true
  | [] => rfl
  | _ :: _ => rfl

theorem containsSub_self_append : ∀ (n t : List Char), containsSub n (n ++ t) = true
  | [], t => by simpa using containsSub_nil_right t
  | a :: as, t => by
    have h := startsWith_append_self (a :: as) t
    rw [List.cons_append] at h
    rw [List.cons_append]
    simp [containsSub, h]

theorem containsSub_cons (n : List Char) (b : Char) (hs : List Char)
    (h : containsSub n hs = true) : containsSub n (b :: hs) = true := by
  simp [containsSub, h]

theorem containsSub_append_left :
    ∀ (s n hs : List Char), containsSub n hs = true → containsSub n (s ++ hs) = true
  | [], _, _, h => h
  | a :: as, n, hs, h => containsSub_cons _ a _ (containsSub_append_left as n hs h)

theorem joinLines_contains :
    ∀ (ls : List String) (l : String), l ∈ ls → strContains (joinLines ls) l = true
  | [l'], l, h => by
    have : l = l' := by simpa using h
    subst this
    have := containsSub_self_append l.data []
    simpa [joinLines, strContains] using this
  | l' :: l'' :: ls, l, h => by
    rcases List.mem_cons.mp h with rfl | h'
    · have := containsSub_self_append l.data (("\n" ++ joinLines (l'' :: ls)).data)
      simpa [joinLines, strContains] using this
    · have ih := joinLines_contains (l'' :: ls) l h'
      have := containsSub_append_left (l' ++ "\n").data l.data (joinLines (l'' :: ls)).data
        (by simpa [strContains] using ih)
      simpa [joinLines, strContains] using this

theorem ceil_le_iff (tb p i : Nat) (hp : 0 < p) :
    (tb + p - 1) / p ≤ i ↔ tb ≤ i * p := by
  have hmul : (i + 1) * p = i * p + p := Nat.succ_mul i p
  constructor
  · intro h
    have h1 : (tb + p - 1) / p < i + 1 := Nat.lt_succ_of_le h
    have h2 : tb + p - 1 < (i + 1) * p := (Nat.div_lt_iff_lt_mul hp).mp h1
    omega
  · intro h
    have h2 : tb + p - 1 < (i + 1) * p := by omega
    have h1 : (tb + p - 1) / p < i + 1 := (Nat.div_lt_iff_lt_mul hp).mpr h2
    omega

theorem pollAux_step (q : Nat → Except String String) (tb p fuel i : Nat)
    (s : String) (hqi : q i = .ok s) (hs : strContains s successMarker = false)
    (htb : ¬ tb ≤ i * p) :
    pollAux q tb p (fuel + 1) i = pollAux q tb p fuel (i + 1) := by
  simp [pollAux, hqi, hs, htb]

theorem pollAux_isSome (q : Nat → Except String String) (tb p : Nat) :
    ∀ fuel i, tb ≤ (i + fuel) * p →
      (pollAux q tb p (fuel + 1) i).isSome = true := by
  intro fuel
  induction fuel with
  | zero =>
    intro i h
    have htb : tb ≤ i * p := by simpa using h
    match hqi : q i with
    | .error e => simp [pollAux, hqi]
    | .ok s =>
      by_cases hs : strContains s successMarker <;> simp [pollAux, hqi, hs, htb]
  | succ f ih =>
    intro i h
    match hqi : q i with
    | .error e => simp [pollAux, hqi]
    | .ok s =>
      by_cases hs : strContains s successMarker
      · simp [pollAux, hqi, hs]
      · by_cases htb : tb ≤ i * p
        · simp [pollAux, hqi, hs, htb]
        · have h' : tb ≤ (i + 1 + f) * p := by
            have : i + 1 + f = i + (f + 1) := by omega
            rw [this]; exact h
          rw [pollAux_step q tb p (f + 1) i s hqi (by simpa using hs) htb]
          exact ih (i + 1) h'

theorem pollDeploymentsStatus_isSome (q : Nat → Except String String)
    (tb p : Nat) (hp : 0 < p) :
    ∃ t, pollDeploymentsStatus q tb p = some t := by
  apply Option.isSome_iff_exists.mp
  show (pollAux q tb p (tb + 1 + 1) 0).isSome = true
  apply pollAux_isSome q tb p (tb + 1) 0
  rw [Nat.zero_add]
  have h1 : tb + 1 ≤ (tb + 1) * p := Nat.le_mul_of_pos_right _ hp
  omega

theorem pollAux_pending (q : Nat → Except String String) (tb p : Nat) (hp : 0 < p)
    (hq : ∀ j, ∃ s, q j = .ok s ∧ strContains s successMarker = false) :
    ∀ fuel i, tb ≤ (i + fuel) * p → i ≤ (tb + p - 1) / p →
      pollAux q tb p (fuel + 1) i =
        some ⟨.timedOut, (tb + p - 1) / p + 1, (tb + p - 1) / p⟩ := by
  intro fuel
  induction fuel with
  | zero =>
    intro i h hi
    obtain ⟨s, hqi, hs⟩ := hq i
    have htb : tb ≤ i * p := by simpa using h
    have hle : (tb + p - 1) / p ≤ i := (ceil_le_iff tb p i hp).mpr htb
    have hie : i = (tb + p - 1) / p := Nat.le_antisymm hi hle
    rw [← hie]
    simp [pollAux, hqi, hs, htb]
  | succ f ih =>
    intro i h hi
    obtain ⟨s, hqi, hs⟩ := hq i
    by_cases htb : tb ≤ i * p
    · have hle : (tb + p - 1) / p ≤ i := (ceil_le_iff tb p i hp).mpr htb
      have hie : i = (tb + p - 1) / p := Nat.le_antisymm hi hle
      rw [← hie]
      simp [pollAux, hqi, hs, htb]
    · have hlt : ¬ (tb + p - 1) / p ≤ i := fun hc => htb ((ceil_le_iff tb p i hp).mp hc)
      have hi' : i + 1 ≤ (tb + p - 1) / p := by omega
      have h' : tb ≤ (i + 1 + f) * p := by
        have : i + 1 + f = i + (f + 1) := by omega
        rw [this]; exact h
      rw [pollAux_step q tb p (f + 1) i s hqi hs htb]
      exact ih (i + 1) h' hi'

theorem deployFailureLines_perm (store : List (String × Except String String)) :
    (deployFailureLines store).Perm (store.filterMap errLine) :=
  (List.perm_insertionSort entryLE store).filterMap errLine

theorem getDeployStatus_eq_none_iff (store : List (String × Except String String)) :
    getDeployStatus store = none ↔ store.filterMap errLine = [] := by
  have hP := deployFailureLines_perm store
  cases hD : deployFailureLines store with
  | nil =>
    rw [hD] at hP
    have h0 : store.filterMap errLine = [] := hP.symm.eq_nil
    simp [getDeployStatus, hD, h0]
  | cons l ls =>
    rw [hD] at hP
    have hne : store.filterMap errLine ≠ [] := by
      intro hc
      rw [hc] at hP
      exact absurd hP.eq_nil (by simp)
    simp [getDeployStatus, hD, hne]

theorem filterMap_errLine_eq_nil_iff (store : List (String × Except String String)) :
    store.filterMap errLine = [] ↔ ∀ kv ∈ store, ∀ c, kv.2 ≠ Except.error c := by
  rw [List.filterMap_eq_nil_iff]
  constructor
  · intro h kv hkv c hc
    have h1 := h kv hkv
    simp [errLine, hc] at h1
  · intro h kv hkv
    match hv : kv.2 with
    | .error c => exact absurd hv (h kv hkv c)
    | .ok v => simp [errLine, hv]

theorem sortStore_sorted (store : List (String × Except String String)) :
    (sortStore store).Pairwise entryLE := by
  haveI : IsTotal (String × Except String String) entryLE :=
    ⟨fun a b => charListLe_total a.1.data b.1.data⟩
  haveI : IsTrans (String × Except String String) entryLE :=
    ⟨fun a b c => charListLe_trans a.1.data b.1.data c.1.data⟩
  exact List.sorted_insertionSort entryLE store

theorem sortStore_pairwiseLT (store : List (String × Except String String))
    (hnd : (store.map Prod.fst).Nodup) :
    (sortStore store).Pairwise entryLT := by
  have hs := sortStore_sorted store
  have hnd' : ((sortStore store).map Prod.fst).Nodup := by
    have hp : ((sortStore store).map Prod.fst).Perm (store.map Prod.fst) :=
      (List.perm_insertionSort entryLE store).map Prod.fst
    exact (hp.nodup_iff).mpr hnd
  have hne : (sortStore store).Pairwise (fun a b => a.1 ≠ b.1) :=
    List.pairwise_map.mp hnd'
  exact (hs.and hne).imp (fun h => ⟨h.1, h.2⟩)

theorem sortStore_eq_of_perm (s₁ s₂ : List (String × Except String String))
    (hperm : s₁.Perm s₂) (hnd : (s₁.map Prod.fst).Nodup) :
    sortStore s₁ = sortStore s₂ := by
  haveI : IsAntisymm (String × Except String String) entryLT :=
    ⟨fun a b h1 h2 =>
      absurd (charListLe_antisymm a.1.data b.1.data h1.1 h2.1)
        (fun hd => h1.2 (String.ext hd))⟩
  have hnd₂ : (s₂.map Prod.fst).Nodup := ((hperm.map Prod.fst).nodup_iff).mp hnd
  apply List.eq_of_perm_of_sorted (r := entryLT)
  · exact (List.perm_insertionSort entryLE s₁).trans
      (hperm.trans (List.perm_insertionSort entryLE s₂).symm)
  · exact sortStore_pairwiseLT s₁ hnd
  · exact sortStore_pairwiseLT s₂ hnd₂

theorem countKey_append (n : String) (s t : List (String × Except String String)) :
    countKey n (s ++ t) = countKey n s + countKey n t := by
  simp [countKey, List.filter_append]

theorem countKey_single_self (n : String) (v : Except String String) :
    countKey n [(n, v)] = 1 := by
  simp [countKey]

theorem countKey_single_ne (m n : String) (v : Except String String) (h : m ≠ n) :
    countKey n [(m, v)] = 0 := by
  simp [countKey, h]

theorem countKey_pollAndStore_self (q : Nat → Except String String) (tb p : Nat)
    (hp : 0 < p) (m : String) (store : List (String × Except String String)) :
    countKey m (pollAndStore q tb p m store) = countKey m store + 1 := by
  obtain ⟨t, ht⟩ := pollDeploymentsStatus_isSome q tb p hp
  rw [pollAndStore, ht]
  rw [countKey_append, countKey_single_self]

theorem countKey_pollAndStore_ne (q : Nat → Except String String) (tb p : Nat)
    (m n : String) (store : List (String × Except String String)) (h : m ≠ n) :
    countKey n (pollAndStore q tb p m store) = countKey n store := by
  cases ht : pollDeploymentsStatus q tb p with
  | none => rw [pollAndStore, ht]
  | some t =>
    rw [pollAndStore, ht]
    rw [countKey_append, countKey_single_ne m n _ h]
    omega

theorem runPollers_countKey_not_mem (q : String → Nat → Except String String) (p : Nat) :
    ∀ (dm : List (String × Nat)) (store : List (String × Except String String))
      (n : String), n ∉ dm.map Prod.fst →
      countKey n (runPollers q p dm store) = countKey n store
  | [], _, _, _ => rfl
  | (m, d) :: rest, store, n, h => by
    have h1 : n ∉ rest.map Prod.fst := fun hc => h (by simp [hc])
    have h2 : m ≠ n := fun hc => h (by simp [hc])
    rw [runPollers]
    rw [runPollers_countKey_not_mem q p rest _ n h1]
    exact countKey_pollAndStore_ne (q m) d p m n store h2

theorem runPollers_countKey_mem (q : String → Nat → Except String String) (p : Nat)
    (hp : 0 < p) :
    ∀ (dm : List (String × Nat)) (store : List (String × Except String String))
      (n : String), (dm.map Prod.fst).Nodup → n ∈ dm.map Prod.fst →
      countKey n (runPollers q p dm store) = countKey n store + 1
  | [], _, n, _, h => absurd h (by simp)
  | (m, d) :: rest, store, n, hnd, h => by
    simp only [List.map_cons, List.nodup_cons] at hnd
    simp only [List.map_cons] at h
    rcases List.mem_cons.mp h with hc | h'
    · subst hc
      rw [runPollers]
      rw [runPollers_countKey_not_mem q p rest _ n hnd.1]
      exact countKey_pollAndStore_self (q n) d p hp n store
    · have hmn : m ≠ n := by
        intro hc
        subst hc
        exact absurd h' hnd.1
      rw [runPollers]
      rw [runPollers_countKey_mem q p hp rest _ n hnd.2 h']
      rw [countKey_pollAndStore_ne (q m) d p m n store hmn]

/-- C1: for every workload whose first rollout-status query returns text
containing the recognized completion marker (case-sensitive substring
"successfully rolled out"), pollDeploymentsStatus terminates with outcome
Success after exactly one invocation of the status query (calls = 1) and with
no sleep before returning (sleeps = 0), whatever the time budget and poll
interval are. -/
theorem spec_C1_first_success_single_call (q : Nat → Except String String)
    (tb p : Nat) (s : String) (hq : q 0 = Except.ok s)
    (hs : strContains s successMarker = true) :
    pollDeploymentsStatus q tb p = some ⟨.success s, 1, 0⟩ := by
  show pollAux q tb p (tb + 1 + 1) 0 = some ⟨.success s, 1, 0⟩
  simp [pollAux, hq, hs]

theorem spec_C1_witness :
    (fun _ => Except.ok "dep successfully rolled out" : Nat → Except String String) 0 =
        Except.ok "dep successfully rolled out" ∧
    strContains "dep successfully rolled out" successMarker = true ∧
    pollDeploymentsStatus (fun _ => Except.ok "dep successfully rolled out") 500 100 =
      some ⟨.success "dep successfully rolled out", 1, 0⟩ :=
  ⟨rfl, by decide,
    spec_C1_first_success_single_call _ 500 100 _ rfl (by decide)⟩

/-- C2: for every workload whose rollout-status query mechanism returns an
error on the first call, pollDeploymentsStatus terminates with outcome
InvocationFailure carrying that error after exactly one invocation (calls = 1,
sleeps = 0). The trace depends only on the first query answer, so the query is
never invoked again for that workload during the check: invocation errors are
terminal and never retried. -/
theorem spec_C2_invocation_error_single_call (q : Nat → Except String String)
    (tb p : Nat) (e : String) (hq : q 0 = Except.error e) :
    pollDeploymentsStatus q tb p = some ⟨.invocationFailure e, 1, 0⟩ := by
  show pollAux q tb p (tb + 1 + 1) 0 = some ⟨.invocationFailure e, 1, 0⟩
  simp [pollAux, hq]

theorem spec_C2_witness :
    (fun _ => Except.error "deployment.apps/dep could not be found" :
        Nat → Except String String) 0 =
      Except.error "deployment.apps/dep could not be found" ∧
    pollDeploymentsStatus (fun _ => Except.error "deployment.apps/dep could not be found")
      500 100 = some ⟨.invocationFailure "deployment.apps/dep could not be found", 1, 0⟩ :=
  ⟨rfl, spec_C2_invocation_error_single_call _ 500 100 _ rfl⟩

/-- C3: for every workload whose status query always returns pending text
(ok and without the completion marker), with a positive poll interval p,
pollDeploymentsStatus terminates with outcome TimedOut at the first query
instant reaching the time budget, never with Success: writing ceil for
(tb + p - 1) / p, which is the ceiling of tb / p, the trace is TimedOut with
exactly ceil + 1 invocations, a count within the plus or minus one the claim
allows around ceil. -/
theorem spec_C3_pending_timeout (q : Nat → Except String String) (tb p : Nat)
    (hp : 0 < p)
    (hq : ∀ j, ∃ s, q j = Except.ok s ∧ strContains s successMarker = false) :
    pollDeploymentsStatus q tb p =
      some ⟨.timedOut, (tb + p - 1) / p + 1, (tb + p - 1) / p⟩ := by
  show pollAux q tb p (tb + 1 + 1) 0 = _
  apply pollAux_pending q tb p hp hq (tb + 1) 0
  · rw [Nat.zero_add]
    have h1 : tb + 1 ≤ (tb + 1) * p := Nat.le_mul_of_pos_right _ hp
    omega
  · exact Nat.zero_le _

theorem spec_C3_witness :
    0 < 100 ∧
    (∀ j : Nat, ∃ s,
      (fun _ => Except.ok
          "Waiting for rollout to finish: 1 of 3 updated replicas are available..." :
        Nat → Except String String) j = Except.ok s ∧
      strContains s successMarker = false) ∧
    pollDeploymentsStatus
      (fun _ => Except.ok
        "Waiting for rollout to finish: 1 of 3 updated replicas are available...")
      1000 100 = some ⟨.timedOut, 11, 10⟩ :=
  ⟨by decide, fun j => ⟨_, rfl, by decide⟩, by
    have h := spec_C3_pending_timeout
      (fun _ => Except.ok
        "Waiting for rollout to finish: 1 of 3 updated replicas are available...")
      1000 100 (by decide) (fun j => ⟨_, rfl, by decide⟩)
    simpa using h⟩

/-- C4: getDeployStatus builds the failure list from all entries: the failure
lines are, up to the stable sort by name, exactly one line of the form
"deployment name failed due to cause" per entry holding a failure cause
(success entries contributing nothing, which the permutation with the filtered
map states); the verdict is overall success (none) exactly when no entry holds
a failure cause; and a failure verdict carries every per-workload line as a
substring of its message. -/
theorem spec_C4_failure_lines (store : List (String × Except String String)) :
    (deployFailureLines store).Perm (store.filterMap errLine) ∧
    (getDeployStatus store = none ↔ ∀ kv ∈ store, ∀ c, kv.2 ≠ Except.error c) ∧
    (∀ msg, getDeployStatus store = some msg →
      ∀ l ∈ deployFailureLines store, strContains msg l = true) := by
  refine ⟨deployFailureLines_perm store, ?_, ?_⟩
  · rw [getDeployStatus_eq_none_iff, filterMap_errLine_eq_nil_iff]
  · intro msg hmsg l hl
    cases hD : deployFailureLines store with
    | nil =>
      rw [hD] at hl
      exact absurd hl (by simp)
    | cons l0 ls =>
      have hmsg' : joinLines (l0 :: ls) = msg := by
        simpa [getDeployStatus, hD] using hmsg
      rw [← hmsg']
      rw [hD] at hl
      exact joinLines_contains (l0 :: ls) l hl

/-- C5: if the deadline inspection query invocation itself fails,
getDeadlineForDeployments returns that error and the whole status check aborts
with it before any polling begins, producing no per-workload results: the
check's value is the bare error, carrying no store. -/
theorem spec_C5_deadline_error_aborts (e : String)
    (q : String → Nat → Except String String) (p : Nat) :
    getDeadlineForDeployments (Except.error e) = Except.error e ∧
    statusCheck (Except.error e) q p = Except.error e :=
  ⟨rfl, rfl⟩

/-- C6: getDeadlineForDeployments parses the single-line comma-separated
name:deadlineSeconds output into the deadline mapping; the output
dep1:100,dep2:200 yields the mapping with dep1 at 100 and dep2 at 200, and the
quoted-empty output yields the empty mapping with no error. -/
theorem spec_C6_deadline_parsing :
    getDeadlineForDeployments (Except.ok "dep1:100,dep2:200") =
      Except.ok [("dep1", 100), ("dep2", 200)] ∧
    getDeadlineForDeployments (Except.ok "''") = Except.ok ([] : List (String × Nat)) :=
  ⟨by decide, by decide⟩

/-- C7: getDeployStatus is deterministic and idempotent, and its output order
is stable for a given input regardless of the order in which the entries were
written: the model is a pure function, so repeated invocations on an unchanged
store are identical by reflexivity, and this theorem states the remaining
content, that any two stores holding the same entries in any write order (a
permutation, with each workload written once, so the names are distinct) get
the identical verdict with the identical message ordering. -/
theorem spec_C7_order_independent (s₁ s₂ : List (String × Except String String))
    (hperm : s₁.Perm s₂) (hnd : (s₁.map Prod.fst).Nodup) :
    getDeployStatus s₁ = getDeployStatus s₂ := by
  have h := sortStore_eq_of_perm s₁ s₂ hperm hnd
  have hl : deployFailureLines s₁ = deployFailureLines s₂ := by
    rw [deployFailureLines, deployFailureLines, h]
  rw [getDeployStatus, getDeployStatus, hl]

theorem spec_C7_witness :
    ([("dep2", Except.error "boom"), ("dep1", Except.ok "SUCCESS")] :
        List (String × Except String String)).Perm
      [("dep1", Except.ok "SUCCESS"), ("dep2", Except.error "boom")] ∧
    (([("dep2", Except.error "boom"), ("dep1", Except.ok "SUCCESS")] :
        List (String × Except String String)).map Prod.fst).Nodup ∧
    getDeployStatus [("dep2", Except.error "boom"), ("dep1", Except.ok "SUCCESS")] =
      getDeployStatus [("dep1", Except.ok "SUCCESS"), ("dep2", Except.error "boom")] :=
  ⟨List.Perm.swap _ _ _, by decide,
    spec_C7_order_independent _ _ (List.Perm.swap _ _ _) (by decide)⟩

/-- C8: with a positive poll interval, each call of the poller writes exactly
one terminal entry into the result store under its workload name, by appending
it and so never overwriting an existing entry; and after the orchestrator's
join (the end of runPollers over a deadline mapping with distinct names,
started from the empty store), every monitored workload has exactly one entry
in the store. -/
theorem spec_C8_one_entry_per_workload (q : Nat → Except String String)
    (tb p : Nat) (hp : 0 < p) (name : String)
    (store : List (String × Except String String))
    (qd : String → Nat → Except String String) (dm : List (String × Nat))
    (hnd : (dm.map Prod.fst).Nodup) :
    (∃ v, pollAndStore q tb p name store = store ++ [(name, v)]) ∧
    (∀ n ∈ dm.map Prod.fst, countKey n (runPollers qd p dm []) = 1) := by
  constructor
  · obtain ⟨t, ht⟩ := pollDeploymentsStatus_isSome q tb p hp
    exact ⟨t.outcome.storedValue, by rw [pollAndStore, ht]⟩
  · intro n hn
    rw [runPollers_countKey_mem qd p hp dm [] n hnd hn]
    rfl

theorem spec_C8_witness :
    0 < 1 ∧
    (([("dep1", 1), ("dep2", 2)] : List (String × Nat)).map Prod.fst).Nodup ∧
    (∃ v, pollAndStore (fun _ => Except.ok "dep successfully rolled out") 3 1 "dep" [] =
        [] ++ [("dep", v)]) ∧
    (∀ n ∈ ([("dep1", 1), ("dep2", 2)] : List (String × Nat)).map Prod.fst,
      countKey n (runPollers (fun _ _ => Except.ok "dep successfully rolled out") 1
        [("dep1", 1), ("dep2", 2)] []) = 1) :=
  ⟨by decide, by decide,
    (spec_C8_one_entry_per_workload (fun _ => Except.ok "dep successfully rolled out")
      3 1 (by decide) "dep" [] (fun _ _ => Except.ok "dep successfully rolled out")
      [("dep1", 1), ("dep2", 2)] (by decide)).1,
    (spec_C8_one_entry_per_workload (fun _ => Except.ok "dep successfully rolled out")
      3 1 (by decide) "dep" [] (fun _ _ => Except.ok "dep successfully rolled out")
      [("dep1", 1), ("dep2", 2)] (by decide)).2⟩

/-- C9: for a poller whose status query yields two pending Waiting responses
followed by one successfully-rolled-out response (the mock of the test file,
padding with the last response), with time budget 500 and poll interval 100,
pollDeploymentsStatus performs exactly 3 query invocations and terminates with
Success. -/
theorem spec_C9_three_calls_success :
    pollDeploymentsStatus
      (MockRolloutStatus.Executefunc
        ⟨["Waiting for rollout to finish: 0 of 1 updated replicas are available...",
          "Waiting for rollout to finish: 0 of 1 updated replicas are available...",
          "deployment.apps/dep successfully rolled out"], none⟩)
      500 100 =
      some ⟨.success "deployment.apps/dep successfully rolled out", 3, 2⟩ := by
  decide

/-- C10: getDeployStatus classifies entries solely by whether the stored value
is an error: the verdict is a failure (some message) if and only if at least
one stored value is an error, so any non-error value, whatever its content,
contributes nothing to the failure list. -/
theorem spec_C10_error_classification (store : List (String × Except String String)) :
    (∃ msg, getDeployStatus store = some msg) ↔
      ∃ kv ∈ store, ∃ c, kv.2 = Except.error c := by
  constructor
  · rintro ⟨msg, hmsg⟩
    by_contra hno
    push_neg at hno
    have h0 : store.filterMap errLine = [] :=
      (filterMap_errLine_eq_nil_iff store).mpr hno
    rw [(getDeployStatus_eq_none_iff store).mpr h0] at hmsg
    simp at hmsg
  · rintro ⟨kv, hkv, c, hc⟩
    cases hmsg : getDeployStatus store with
    | some msg => exact ⟨msg, rfl⟩
    | none =>
      have h0 := (getDeployStatus_eq_none_iff store).mp hmsg
      have hne := (filterMap_errLine_eq_nil_iff store).mp h0 kv hkv c
      exact absurd hc hne
